import Mathlib

/-!
Verification of the boundary-condition classifier/aggregator from the
Robin/Neumann/Dirichlet notebook (`chapter3/robin_neumann_dirichlet.ipynb`)
and its facet-tagging loop.

The notebook builds symbolic UFL forms.  We embed the fragment of the
symbolic-expression language actually used by the boundary-condition code:
scalar expressions over the trial function `u`, the test function `v`,
integer constants, and opaque symbolic atoms (spatial coordinates, facet
normals, external coefficients).  A variational form is a list of integrals,
each an integrand together with a measure (`dx`, or `ds(marker)` restricted
to a tagged boundary region); UFL form addition concatenates integrals.

Semantic equality of forms is defined through an arbitrary quadrature model:
a measure is interpreted as a finite list of weighted evaluation points, an
integral as the weighted sum of its integrand over those points, and a form
as the sum of its integrals.  Two forms are semantically equal when they
agree under every quadrature model.

External collaborators (the function space, facet tags, dof location,
interpolation) are abstracted as an `Ext` record of opaque functions, matching
the spec, which treats them as opaque capabilities of the external library.
-/

namespace RobinNeumannDirichlet

/-- An evaluation point for symbolic expressions: an assignment of integer
values to the opaque atoms, to the trial function `u` and to the test
function `v`. -/
structure Point where
  ρ : String → Int
  uval : Int
  vval : Int

/-- The fragment of the symbolic scalar-expression language used by the
boundary-condition code: constants, opaque atoms (spatial coordinates,
facet normal contractions, external coefficients), the trial function `u`,
the test function `v`, and arithmetic.  `inner` is the UFL inner product,
which on scalars is multiplication. -/
inductive Expr where
  | const (c : Int)
  | atom (s : String)
  | u
  | v
  | add (a b : Expr)
  | sub (a b : Expr)
  | neg (a : Expr)
  | mul (a b : Expr)
  | inner (a b : Expr)
deriving DecidableEq

/-- Evaluation of a symbolic expression at a point. -/
def eval : Expr → Point → Int
  | .const c, _ => c
  | .atom s, p => p.ρ s
  | .u, p => p.uval
  | .v, p => p.vval
  | .add a b, p => eval a p + eval b p
  | .sub a b, p => eval a p - eval b p
  | .neg a, p => - eval a p
  | .mul a b, p => eval a p * eval b p
  | .inner a b, p => eval a p * eval b p

/-- Integration measures used by the notebook: the volume measure `dx` and
the boundary measure `ds(marker)` restricted to the region tagged by an
integer marker (`ds = Measure("ds", domain=mesh, subdomain_data=facet_tag)`). -/
inductive Measure where
  | dx
  | ds (marker : Int)
deriving DecidableEq

/-- One integral of a variational form: an integrand and a measure. -/
structure Integral where
  integrand : Expr
  meas : Measure
deriving DecidableEq

/-- A variational form is a list of integrals; UFL form addition
concatenates the integral lists. -/
abbrev Form := List Integral

/-- A quadrature model: each measure is interpreted as a finite list of
weighted evaluation points. -/
def Quad : Type := Measure → List (Int × Point)

/-- The value of one integral under a quadrature model. -/
def denoteIntegral (μ : Quad) (t : Integral) : Int :=
  ((μ t.meas).map (fun wp => wp.1 * eval t.integrand wp.2)).sum

/-- The value of a form under a quadrature model: the sum of its integrals. -/
def denoteForm (μ : Quad) (F : Form) : Int :=
  (F.map (denoteIntegral μ)).sum

/-- Semantic equality of forms: equal value under every quadrature model. -/
def SemEq (F G : Form) : Prop := ∀ μ : Quad, denoteForm μ F = denoteForm μ G

/-- A prescribed-value function of position, as passed to `interpolate`
(the notebook's `u_ex = lambda x: 1 + x[0]**2 + 2*x[1]**2`): it maps a
coordinate array to a scalar. -/
def ValueFn : Type := List Int → Int

/-- The `values` argument of `BoundaryCondition.__init__` is duck-typed in
the source: a callable for Dirichlet, a symbolic expression for Neumann, a
pair `(r, s)` of symbolic expressions for Robin.  We model the dynamic value
as a tagged union. -/
inductive BCValue where
  | func (f : ValueFn)
  | expr (e : Expr)
  | pair (r s : Expr)

/-- The external collaborators captured by the notebook globals:
`facet_tag.find` (marker to facet indices), `locate_dofs_topological`
(facets to dof indices on the function space `V`), and interpolation of a
value function into nodal values of a `Function(V)`.  All are opaque
external-library capabilities. -/
structure Ext where
  find : Int → List Nat
  locate_dofs_topological : List Nat → List Nat
  interpolate : ValueFn → List Int

/-- The object built by `dirichletbc(u_D, dofs)`: the interpolated nodal
values and the constrained dof indices. -/
structure DirichletBC where
  uD : List Int
  dofs : List Nat
deriving DecidableEq

/-- The `_bc` attribute of a constructed `BoundaryCondition`: either an
essential-constraint object (Dirichlet branch) or a variational form
(Neumann and Robin branches). -/
inductive BCObj where
  | dirichlet (d : DirichletBC)
  | form (G : Form)
deriving DecidableEq

/-- Python exceptions relevant to this component: the `TypeError` raised by
the unknown-kind branch of `BoundaryCondition.__init__`, and errors raised
by external collaborators on arguments of the wrong shape. -/
inductive PyError where
  | typeError (msg : String)
  | collaboratorError (msg : String)
deriving DecidableEq

/-- A constructed `BoundaryCondition` object: the stored `_type` string
(exposed by the `type` property) and the stored `_bc` object (exposed by
the `bc` property). -/
structure BoundaryCondition where
  type : String
  bc : BCObj

/-- A boundary-condition specification as passed to the constructor:
`BoundaryCondition(type, marker, values)`. -/
structure BCSpec where
  type : String
  marker : Int
  values : BCValue

/-- `BoundaryCondition.__init__` from the notebook:

```
def __init__(self, type, marker, values):
    self._type = type
    if type == "Dirichlet":
        u_D = Function(V)
        u_D.interpolate(values)
        facets = facet_tag.find(marker)
        dofs = locate_dofs_topological(V, fdim, facets)
        self._bc = dirichletbc(u_D, dofs)
    elif type == "Neumann":
        self._bc = inner(values, v) * ds(marker)
    elif type == "Robin":
        self._bc = values[0] * inner(u-values[1], v)* ds(marker)
    else:
        raise TypeError("Unknown boundary condition: {0:s}".format(type))
```

A raised exception is modeled as `Except.error`.  When the duck-typed
`values` does not have the shape the branch expects, the external call
(`interpolate`, `inner`, or subscripting) raises; we model those as
`collaboratorError`. -/
def mkBoundaryCondition (ext : Ext) (type : String) (marker : Int)
    (values : BCValue) : Except PyError BoundaryCondition :=
  if type = "Dirichlet" then
    match values with
    | .func f =>
        let u_D := ext.interpolate f
        let facets := ext.find marker
        let dofs := ext.locate_dofs_topological facets
        .ok ⟨type, .dirichlet ⟨u_D, dofs⟩⟩
    | _ => .error (.collaboratorError "interpolate: unsupported values")
  else if type = "Neumann" then
    match values with
    | .expr g => .ok ⟨type, .form [⟨.inner g .v, .ds marker⟩]⟩
    | _ => .error (.collaboratorError "inner: unsupported values")
  else if type = "Robin" then
    match values with
    | .pair r s =>
        .ok ⟨type, .form [⟨.mul r (.inner (.sub .u s) .v), .ds marker⟩]⟩
    | _ => .error (.collaboratorError "subscript: unsupported values")
  else
    .error (.typeError ("Unknown boundary condition: " ++ type))

/-- Constructing the `boundary_conditions` list: each element is built by
`BoundaryCondition(...)`; the first raised exception aborts the whole list
construction. -/
def buildConditions (ext : Ext) : List BCSpec →
    Except PyError (List BoundaryCondition)
  | [] => .ok []
  | s :: rest => do
      let c ← mkBoundaryCondition ext s.type s.marker s.values
      let cs ← buildConditions ext rest
      .ok (c :: cs)

/-- The mutable state of the aggregation loop: the essential-constraint
list `bcs` and the residual form `F`. -/
abbrev LoopState : Type := List BCObj × Form

/-- The aggregation loop from the notebook:

```
bcs = []
for condition in boundary_conditions:
    if condition.type == "Dirichlet":
        bcs.append(condition.bc)
    else:
        F += condition.bc
```

`bcs.append` appends the raw `bc` object; `F += condition.bc` is UFL form
addition, which requires `condition.bc` to be a form (adding a Dirichlet
constraint object to a form would raise a `TypeError`; this never happens
for constructed conditions).  On an exception the loop stops with the state
reached so far. -/
def runLoop : List BoundaryCondition → LoopState → Option PyError × LoopState
  | [], st => (none, st)
  | c :: rest, (bcs, F) =>
      if c.type = "Dirichlet" then
        runLoop rest (bcs ++ [c.bc], F)
      else
        match c.bc with
        | .form G => runLoop rest (bcs, F ++ G)
        | .dirichlet _ =>
            (some (.typeError "unsupported operand type for +"), (bcs, F))

/-- The whole classify-and-accumulate operation: construct the
`boundary_conditions` list from the specifications, then run the
aggregation loop starting from `bcs = []` and the base residual.  If list
construction raises, the loop never runs: the essential-constraint list is
still empty and the residual is still the base residual. -/
def classify_and_accumulate (ext : Ext) (specs : List BCSpec) (F0 : Form) :
    Option PyError × LoopState :=
  match buildConditions ext specs with
  | .error e => (some e, ([], F0))
  | .ok conds => runLoop conds ([], F0)

/-- The three kind strings accepted by the dispatch. -/
def supportedKinds : List String := ["Dirichlet", "Neumann", "Robin"]

/-- A specification is well-shaped when its duck-typed `values` has the
shape its (supported) kind expects; unknown kinds place no requirement. -/
def shapeOk (type : String) (values : BCValue) : Bool :=
  if type = "Dirichlet" then
    match values with
    | .func _ => true
    | _ => false
  else if type = "Neumann" then
    match values with
    | .expr _ => true
    | _ => false
  else if type = "Robin" then
    match values with
    | .pair _ _ => true
    | _ => false
  else true

/-- A well-formed specification: supported kind and matching value shape. -/
def WellFormed (s : BCSpec) : Prop :=
  s.type ∈ supportedKinds ∧ shapeOk s.type s.values = true

instance (s : BCSpec) : Decidable (WellFormed s) := by
  unfold WellFormed; infer_instance

/-! ### Notebook scenario constants -/

/-- The manufactured solution `u_ex = lambda x: 1 + x[0]**2 + 2*x[1]**2`
as a value function of the coordinate array (`x[i]**2` written as a
self-product). -/
def u_ex : ValueFn := fun x =>
  1 + (x.getD 0 0) * (x.getD 0 0) + 2 * ((x.getD 1 0) * (x.getD 1 0))

/-- `s = u_ex(x)` with `x = SpatialCoordinate(mesh)`: the same polynomial
as a symbolic expression over the coordinate atoms. -/
def sExpr : Expr :=
  .add (.const 1)
    (.add (.mul (.atom "x0") (.atom "x0"))
      (.mul (.const 2) (.mul (.atom "x1") (.atom "x1"))))

/-- `r = Constant(mesh, default_scalar_type(1000))`. -/
def rExpr : Expr := .const 1000

/-- `g = -dot(n, grad(u_ex(x)))`: opaque facet-normal contraction. -/
def gExpr : Expr := .neg (.inner (.atom "n") (.atom "grad_u_ex"))

/-- The notebook's `boundary_conditions` list:

```
boundary_conditions = [BoundaryCondition("Dirichlet", 1, u_ex),
                       BoundaryCondition("Dirichlet", 2, u_ex),
                       BoundaryCondition("Robin", 3, (r, s)),
                       BoundaryCondition("Neumann", 4, g)]
``` -/
def scenarioSpecs : List BCSpec :=
  [⟨"Dirichlet", 1, .func u_ex⟩,
   ⟨"Dirichlet", 2, .func u_ex⟩,
   ⟨"Robin", 3, .pair rExpr sExpr⟩,
   ⟨"Neumann", 4, .expr gExpr⟩]

/-- The Robin integral as built by the source:
`values[0] * inner(u-values[1], v) * ds(marker)`. -/
def robinTerm (r s : Expr) (m : Int) : Integral :=
  ⟨.mul r (.inner (.sub .u s) .v), .ds m⟩

/-- The Neumann integral as built by the source: `inner(values, v) * ds(marker)`. -/
def neumannTerm (g : Expr) (m : Int) : Integral :=
  ⟨.inner g .v, .ds m⟩

/-- Modelled from the spec wording of §4.1: the Robin bilinear term
`∫ r·u·v ds` over the tagged region. -/
def specRobinBilinear (r : Expr) (m : Int) : Integral :=
  ⟨.mul r (.mul .u .v), .ds m⟩

/-- Modelled from the spec wording of §4.1: the Robin linear term
`-∫ r·s·v ds` over the tagged region. -/
def specRobinLinear (r s : Expr) (m : Int) : Integral :=
  ⟨.neg (.mul r (.mul s .v)), .ds m⟩

/-- Modelled from the spec wording: the Neumann term `g·v` (flux value
times test function) integrated over the tagged region. -/
def specNeumannTerm (g : Expr) (m : Int) : Integral :=
  ⟨.mul g .v, .ds m⟩

/-- A concrete external-collaborator instance (used for concrete runs). -/
def ext0 : Ext :=
  ⟨fun _ => [], fun l => l, fun _ => []⟩

/-! ### Facet tagging (the `facet_tag` cell)

```
facet_indices, facet_markers = [], []
fdim = mesh.topology.dim - 1
for (marker, locator) in boundaries:
    facets = locate_entities(mesh, fdim, locator)
    facet_indices.append(facets)
    facet_markers.append(np.full_like(facets, marker))
facet_indices = np.hstack(facet_indices).astype(np.int32)
facet_markers = np.hstack(facet_markers).astype(np.int32)
sorted_facets = np.argsort(facet_indices)
facet_tag = meshtags(mesh, fdim, facet_indices[sorted_facets],
                     facet_markers[sorted_facets])
```

`locate_entities` is an external-library capability, abstracted as a
function from a geometric predicate to a list of facet indices.
Appending per-boundary arrays and then `np.hstack` is concatenation;
`np.full_like(facets, marker)` is a same-length constant array;
`np.argsort` returns a permutation of positions that sorts the array
(modeled by a merge sort of the position range); fancy indexing
`a[perm]` maps positions through the array. -/

/-- A geometric boundary predicate over the coordinate array
(`np.isclose` on integer coordinates is exact equality). -/
def Locator : Type := List Int → Bool

/-- The notebook's `boundaries` list of (marker, locator) pairs:
`{1: x=0, 2: x=1, 3: y=0, 4: y=1}`. -/
def boundaries : List (Int × Locator) :=
  [(1, fun x => x.getD 0 0 == 0),
   (2, fun x => x.getD 0 0 == 1),
   (3, fun x => x.getD 1 0 == 0),
   (4, fun x => x.getD 1 0 == 1)]

/-- The facet loop: build the concatenated facet-index and marker arrays. -/
def facetArrays (locate : Locator → List Nat) (bs : List (Int × Locator)) :
    List Nat × List Int :=
  bs.foldl
    (fun acc b =>
      let facets := locate b.2
      (acc.1 ++ facets, acc.2 ++ facets.map (fun _ => b.1)))
    ([], [])

/-- `np.argsort`: positions of the array reordered so that the values are
non-decreasing. -/
def argsort (xs : List Nat) : List Nat :=
  (List.range xs.length).mergeSort (fun i j => decide (xs.getD i 0 ≤ xs.getD j 0))

/-- NumPy fancy indexing `a[perm]`. -/
def fancyIndex {α : Type} (xs : List α) (d : α) (perm : List Nat) : List α :=
  perm.map (fun i => xs.getD i d)

/-- The tagging structure built by `meshtags`: parallel arrays of facet
indices and marker values. -/
structure MeshTags where
  indices : List Nat
  values : List Int

/-- The `facet_tag` object built by the cell, for a given external
`locate_entities`. -/
def facet_tag_of (locate : Locator → List Nat) : MeshTags :=
  let fi := (facetArrays locate boundaries).1
  let fm := (facetArrays locate boundaries).2
  let sorted_facets := argsort fi
  ⟨fancyIndex fi 0 sorted_facets, fancyIndex fm 0 sorted_facets⟩

/-- The pairing the loop is meant to produce: each located facet paired
with the marker of the boundary predicate that located it. -/
def pairsOf (locate : Locator → List Nat) (bs : List (Int × Locator)) :
    List (Nat × Int) :=
  bs.flatMap (fun b => (locate b.2).map (fun f => (f, b.1)))

/-! ### Pure characterization layer

Helper definitions describing, spec-side, what the imperative pipeline
computes; the characterization lemma below proves the pipeline equal to
them on well-formed input. -/

/-- The condition object the constructor builds for a well-formed
specification (junk on non-well-formed input, which the lemmas exclude). -/
def condOf (ext : Ext) (s : BCSpec) : BoundaryCondition :=
  if s.type = "Dirichlet" then
    match s.values with
    | .func f =>
        ⟨s.type, .dirichlet
          ⟨ext.interpolate f, ext.locate_dofs_topological (ext.find s.marker)⟩⟩
    | _ => ⟨s.type, .form []⟩
  else if s.type = "Neumann" then
    match s.values with
    | .expr g => ⟨s.type, .form [⟨.inner g .v, .ds s.marker⟩]⟩
    | _ => ⟨s.type, .form []⟩
  else
    match s.values with
    | .pair r t =>
        ⟨s.type, .form [⟨.mul r (.inner (.sub .u t) .v), .ds s.marker⟩]⟩
    | _ => ⟨s.type, .form []⟩

/-- What a condition contributes to the essential-constraint list. -/
def essObj (c : BoundaryCondition) : Option BCObj :=
  if c.type = "Dirichlet" then some c.bc else none

/-- What a condition contributes to the residual (for conditions whose
`bc` is a form when the type is not Dirichlet). -/
def natForm (c : BoundaryCondition) : Form :=
  if c.type = "Dirichlet" then []
  else
    match c.bc with
    | .form G => G
    | .dirichlet _ => []

/-- A condition object on which the aggregation loop cannot raise:
either it is routed to the constraint list, or its `bc` is a form. -/
def GoodBC (c : BoundaryCondition) : Prop :=
  c.type = "Dirichlet" ∨ ∃ G, c.bc = .form G

/-- Spec-side: the essential constraint produced by one specification. -/
def essentialsOf (ext : Ext) (s : BCSpec) : Option BCObj :=
  if s.type = "Dirichlet" then
    match s.values with
    | .func f =>
        some (.dirichlet
          ⟨ext.interpolate f, ext.locate_dofs_topological (ext.find s.marker)⟩)
    | _ => none
  else none

/-- Spec-side: the residual terms produced by one specification. -/
def termsOf (s : BCSpec) : Form :=
  if s.type = "Dirichlet" then []
  else if s.type = "Neumann" then
    match s.values with
    | .expr g => [⟨.inner g .v, .ds s.marker⟩]
    | _ => []
  else if s.type = "Robin" then
    match s.values with
    | .pair r t => [⟨.mul r (.inner (.sub .u t) .v), .ds s.marker⟩]
    | _ => []
  else []

/-- Modelled from the spec wording of §4: the pure-fold form of the
operation, `(essential-constraint list, base residual ++ accumulated
natural/mixed terms)`. -/
def classifyPure (ext : Ext) (specs : List BCSpec) (F0 : Form) :
    List BCObj × Form :=
  (specs.filterMap (essentialsOf ext), F0 ++ specs.flatMap termsOf)

lemma mk_eq_condOf (ext : Ext) (s : BCSpec) (h : WellFormed s) :
    mkBoundaryCondition ext s.type s.marker s.values = .ok (condOf ext s) := by
  obtain ⟨hk, hs⟩ := h
  simp only [supportedKinds, List.mem_cons, List.mem_singleton,
    List.not_mem_nil, or_false] at hk
  rcases hk with hk | hk | hk <;>
    · rw [hk] at hs ⊢
      cases hv : s.values <;>
        simp_all [mkBoundaryCondition, condOf, shapeOk]

lemma condOf_type (ext : Ext) (s : BCSpec) : (condOf ext s).type = s.type := by
  unfold condOf
  split <;> [skip; split] <;> cases s.values <;> rfl

lemma condOf_good (ext : Ext) (s : BCSpec) (h : WellFormed s) :
    GoodBC (condOf ext s) := by
  obtain ⟨hk, hs⟩ := h
  simp only [supportedKinds, List.mem_cons, List.mem_singleton,
    List.not_mem_nil, or_false] at hk
  rcases hk with hk | hk | hk <;>
    · rw [hk] at hs
      cases hv : s.values <;>
        simp_all [GoodBC, condOf, shapeOk, hk]

lemma essObj_condOf (ext : Ext) (s : BCSpec) (h : WellFormed s) :
    essObj (condOf ext s) = essentialsOf ext s := by
  obtain ⟨hk, hs⟩ := h
  simp only [supportedKinds, List.mem_cons, List.mem_singleton,
    List.not_mem_nil, or_false] at hk
  rcases hk with hk | hk | hk <;>
    · rw [hk] at hs
      cases hv : s.values <;>
        simp_all [essObj, essentialsOf, condOf, condOf_type, shapeOk, hk]

lemma natForm_condOf (ext : Ext) (s : BCSpec) (h : WellFormed s) :
    natForm (condOf ext s) = termsOf s := by
  obtain ⟨hk, hs⟩ := h
  simp only [supportedKinds, List.mem_cons, List.mem_singleton,
    List.not_mem_nil, or_false] at hk
  rcases hk with hk | hk | hk <;>
    · rw [hk] at hs
      cases hv : s.values <;>
        simp_all [natForm, termsOf, condOf, shapeOk, hk]

lemma buildConditions_wf (ext : Ext) (specs : List BCSpec)
    (h : ∀ s ∈ specs, WellFormed s) :
    buildConditions ext specs = .ok (specs.map (condOf ext)) := by
  induction specs with
  | nil => rfl
  | cons s rest ih =>
      have hs := h s (List.mem_cons_self s rest)
      have hr := ih (fun t ht => h t (List.mem_cons_of_mem s ht))
      simp only [buildConditions, mk_eq_condOf ext s hs, hr]
      rfl

lemma runLoop_good (conds : List BoundaryCondition)
    (h : ∀ c ∈ conds, GoodBC c) : ∀ bcs F,
    runLoop conds (bcs, F) =
      (none, (bcs ++ conds.filterMap essObj, F ++ conds.flatMap natForm)) := by
  induction conds with
  | nil => intro bcs F; simp [runLoop]
  | cons c rest ih =>
      intro bcs F
      have hc := h c (List.mem_cons_self c rest)
      have hr := ih (fun d hd => h d (List.mem_cons_of_mem c hd))
      by_cases hd : c.type = "Dirichlet"
      · simp [runLoop, hd, hr, essObj, natForm, List.filterMap_cons]
      · rcases hc with hc | ⟨G, hG⟩
        · exact absurd hc hd
        · simp [runLoop, hd, hG, hr, essObj, natForm, List.filterMap_cons,
            List.append_assoc]

/-- Characterization of the whole pipeline on well-formed input: no
exception, the essential constraints are exactly those of the Dirichlet
specifications in order, and the residual is the base residual followed by
the natural/mixed terms of the specifications in order. -/
lemma classify_char (ext : Ext) (specs : List BCSpec) (F0 : Form)
    (h : ∀ s ∈ specs, WellFormed s) :
    classify_and_accumulate ext specs F0 =
      (none, (specs.filterMap (essentialsOf ext),
              F0 ++ specs.flatMap termsOf)) := by
  unfold classify_and_accumulate
  rw [buildConditions_wf ext specs h]
  dsimp only
  have hgood : ∀ c ∈ specs.map (condOf ext), GoodBC c := by
    intro c hc
    obtain ⟨s, hs, rfl⟩ := List.mem_map.1 hc
    exact condOf_good ext s (h s hs)
  rw [runLoop_good _ hgood [] F0]
  congr 1
  simp only [Prod.mk.injEq]
  refine ⟨?_, ?_⟩
  · rw [List.filterMap_map]
    simp only [List.nil_append]
    exact List.filterMap_congr (fun s hs => essObj_condOf ext s (h s hs))
  · rw [List.flatMap_map]
    congr 1
    exact List.flatMap_congr (fun s hs => natForm_condOf ext s (h s hs))

/-! ### Denotation lemmas -/

lemma denoteForm_append (μ : Quad) (F G : Form) :
    denoteForm μ (F ++ G) = denoteForm μ F + denoteForm μ G := by
  simp [denoteForm]

lemma denoteIntegral_split (μ : Quad) (e e1 e2 : Expr) (m : Measure)
    (h : ∀ p, eval e p = eval e1 p + eval e2 p) :
    denoteIntegral μ ⟨e, m⟩ = denoteIntegral μ ⟨e1, m⟩ + denoteIntegral μ ⟨e2, m⟩ := by
  simp only [denoteIntegral]
  induction μ m with
  | nil => simp
  | cons wp rest ih =>
      simp only [List.map_cons, List.sum_cons, ih, h wp.2]
      ring

lemma semEq_of_perm {F G : Form} (h : F.Perm G) : SemEq F G :=
  fun μ => ((h.map (denoteIntegral μ)).sum_eq)

lemma denoteIntegral_congr (μ : Quad) (e1 e2 : Expr) (m : Measure)
    (h : ∀ p, eval e1 p = eval e2 p) :
    denoteIntegral μ ⟨e1, m⟩ = denoteIntegral μ ⟨e2, m⟩ := by
  simp only [denoteIntegral]
  congr 1
  apply List.map_congr_left
  intro wp _
  rw [h]

lemma mk_unknown (ext : Ext) (k : String) (m : Int) (val : BCValue)
    (hk : k ∉ supportedKinds) :
    mkBoundaryCondition ext k m val =
      .error (.typeError ("Unknown boundary condition: " ++ k)) := by
  simp only [supportedKinds, List.mem_cons, List.mem_singleton,
    List.not_mem_nil, or_false, not_or] at hk
  obtain ⟨h1, h2, h3⟩ := hk
  simp [mkBoundaryCondition, h1, h2, h3]

lemma buildConditions_error (ext : Ext) (b : BCSpec) (post : List BCSpec)
    (e : PyError)
    (hb : mkBoundaryCondition ext b.type b.marker b.values = .error e) :
    ∀ pre : List BCSpec, (∀ s ∈ pre, WellFormed s) →
      buildConditions ext (pre ++ b :: post) = .error e := by
  intro pre
  induction pre with
  | nil =>
      intro _
      simp only [List.nil_append, buildConditions, hb]
      rfl
  | cons s rest ih =>
      intro hpre
      have hs := hpre s (List.mem_cons_self s rest)
      have hr := ih (fun t ht => hpre t (List.mem_cons_of_mem s ht))
      simp only [List.cons_append, buildConditions, mk_eq_condOf ext s hs]
      rw [show rest.append (b :: post) = rest ++ b :: post from rfl, hr]
      rfl

/-! ### Facet-tagging lemmas -/

lemma facetArrays_eq (locate : Locator → List Nat)
    (bs : List (Int × Locator)) :
    facetArrays locate bs =
      (bs.flatMap (fun b => locate b.2),
       bs.flatMap (fun b => (locate b.2).map (fun _ => b.1))) := by
  have general : ∀ (l : List (Int × Locator)) (a1 : List Nat) (a2 : List Int),
      l.foldl
        (fun acc b =>
          let facets := locate b.2
          (acc.1 ++ facets, acc.2 ++ facets.map (fun _ => b.1)))
        (a1, a2) =
      (a1 ++ l.flatMap (fun b => locate b.2),
       a2 ++ l.flatMap (fun b => (locate b.2).map (fun _ => b.1))) := by
    intro l
    induction l with
    | nil => intro a1 a2; simp
    | cons b rest ih =>
        intro a1 a2
        simp only [List.foldl_cons, List.flatMap_cons, ih,
          List.append_assoc]
  simpa [facetArrays] using general bs [] []

lemma zip_self_map_const {α β : Type} (l : List α) (c : β) :
    l.zip (l.map (fun _ => c)) = l.map (fun f => (f, c)) := by
  induction l with
  | nil => rfl
  | cons a t ih => simp only [List.map_cons, List.zip_cons_cons, ih]

lemma zip_facetArrays (locate : Locator → List Nat)
    (bs : List (Int × Locator)) :
    ((facetArrays locate bs).1).zip ((facetArrays locate bs).2) =
      pairsOf locate bs := by
  rw [facetArrays_eq]
  induction bs with
  | nil => rfl
  | cons b rest ih =>
      simp only [List.flatMap_cons, pairsOf] at ih ⊢
      rw [List.zip_append (by simp), zip_self_map_const, ih]

lemma facetArrays_length (locate : Locator → List Nat)
    (bs : List (Int × Locator)) :
    (facetArrays locate bs).1.length = (facetArrays locate bs).2.length := by
  rw [facetArrays_eq]
  simp only [List.length_flatMap]
  congr 1
  apply List.map_congr_left
  intro b _
  simp

lemma map_getD_range {α : Type} (l : List α) (d : α) :
    (List.range l.length).map (fun i => l.getD i d) = l := by
  apply List.ext_getElem
  · simp
  · intro i h1 h2
    simp only [List.getElem_map, List.getElem_range]
    exact List.getD_eq_getElem l d h2

lemma argsort_perm (xs : List Nat) :
    (argsort xs).Perm (List.range xs.length) :=
  List.mergeSort_perm _ _

lemma argsort_mem_lt (xs : List Nat) :
    ∀ i ∈ argsort xs, i < xs.length := fun i hi =>
  List.mem_range.1 ((argsort_perm xs).mem_iff.1 hi)

lemma argsort_sorted (xs : List Nat) :
    List.Pairwise (fun a b => a ≤ b) (fancyIndex xs 0 (argsort xs)) := by
  have hp : List.Pairwise
      (fun i j => (decide (xs.getD i 0 ≤ xs.getD j 0)) = true) (argsort xs) := by
    apply List.sorted_mergeSort
    · intro a b c hab hbc
      simp only [decide_eq_true_eq] at *
      omega
    · intro a b
      simp only [Bool.or_eq_true, decide_eq_true_eq]
      omega
  exact List.Pairwise.map _ (by intro a b h; simpa using h) hp

lemma fancyIndex_perm {α : Type} (l : List α) (d : α) (σ : List Nat)
    (hσ : σ.Perm (List.range l.length)) :
    (fancyIndex l d σ).Perm l := by
  unfold fancyIndex
  have h := hσ.map (fun i => l.getD i d)
  rwa [map_getD_range] at h

lemma fancyIndex_zip (fi : List Nat) (fm : List Int)
    (h : fi.length = fm.length) (σ : List Nat)
    (hσ : ∀ i ∈ σ, i < fi.length) :
    (fancyIndex fi 0 σ).zip (fancyIndex fm 0 σ) =
      fancyIndex (fi.zip fm) (0, 0) σ := by
  unfold fancyIndex
  rw [List.zip_map']
  apply List.map_congr_left
  intro i hi
  have h1 : i < fi.length := hσ i hi
  have h2 : i < fm.length := h ▸ h1
  have hz : i < (fi.zip fm).length := by
    rw [List.length_zip]
    omega
  rw [List.getD_eq_getElem fi 0 h1, List.getD_eq_getElem fm 0 h2,
    List.getD_eq_getElem (fi.zip fm) (0, 0) hz, List.getElem_zip]

lemma filterMap_essentials_dirichlet (ext : Ext) (ps : List (Int × ValueFn)) :
    (ps.map (fun p => (⟨"Dirichlet", p.1, .func p.2⟩ : BCSpec))).filterMap
      (essentialsOf ext) =
    ps.map (fun p => BCObj.dirichlet
      ⟨ext.interpolate p.2, ext.locate_dofs_topological (ext.find p.1)⟩) := by
  induction ps with
  | nil => rfl
  | cons p rest ih => simp [List.filterMap_cons, essentialsOf, ih]

lemma flatMap_terms_dirichlet (ps : List (Int × ValueFn)) :
    (ps.map (fun p => (⟨"Dirichlet", p.1, .func p.2⟩ : BCSpec))).flatMap
      termsOf = [] := by
  induction ps with
  | nil => rfl
  | cons p rest ih => simp [List.flatMap_cons, termsOf, ih]

/-! ### Claim theorems -/

/-- C1: for every specification whose kind string is not one of
"Dirichlet", "Neumann", "Robin", processing the specification list fails
fast with the unknown-kind `TypeError` whose message identifies the
offending kind string, and no partial output is produced: the
essential-constraint list is still empty and the residual is still the
base residual.  `pre` is the (well-formed) prefix of the list before the
offending specification. -/
theorem claim_C1 (ext : Ext) (pre : List BCSpec) (k : String) (m : Int)
    (val : BCValue) (post : List BCSpec) (F0 : Form)
    (hk : k ∉ supportedKinds) (hpre : ∀ s ∈ pre, WellFormed s) :
    classify_and_accumulate ext (pre ++ ⟨k, m, val⟩ :: post) F0 =
      (some (.typeError ("Unknown boundary condition: " ++ k)), ([], F0)) := by
  unfold classify_and_accumulate
  rw [buildConditions_error ext ⟨k, m, val⟩ post _
    (mk_unknown ext k m val hk) pre hpre]

theorem claim_C1_witness :
    classify_and_accumulate ext0
        [⟨"Periodic", 1, .expr gExpr⟩] [] =
      (some (.typeError ("Unknown boundary condition: " ++ "Periodic")),
       ([], [])) :=
  claim_C1 ext0 [] "Periodic" 1 (.expr gExpr) [] [] (by decide)
    (by intro s hs; simp at hs)

/-- C2: a specification list containing exactly one Robin entry with
coefficient `r` and reference `s` on marker `m` yields an empty
essential-constraint list and the residual `base_residual` followed by the
single integral `r * inner(u - s, v) * ds(m)`, which is semantically equal
to the bilinear term `∫ r·u·v ds` plus the linear term `-∫ r·s·v ds`. -/
theorem claim_C2 (ext : Ext) (r s : Expr) (m : Int) (F0 : Form) :
    classify_and_accumulate ext [⟨"Robin", m, .pair r s⟩] F0 =
      (none, ([], F0 ++ [robinTerm r s m])) ∧
    SemEq (F0 ++ [robinTerm r s m])
      (F0 ++ [specRobinBilinear r m, specRobinLinear r s m]) := by
  constructor
  · have hw : ∀ t ∈ [(⟨"Robin", m, .pair r s⟩ : BCSpec)], WellFormed t := by
      intro t ht
      simp only [List.mem_singleton] at ht
      subst ht
      exact ⟨by simp [supportedKinds], rfl⟩
    rw [classify_char ext _ F0 hw]
    simp [essentialsOf, termsOf, robinTerm]
  · intro μ
    have hsplit := denoteIntegral_split μ
      (.mul r (.inner (.sub .u s) .v))
      (.mul r (.mul .u .v))
      (.neg (.mul r (.mul s .v)))
      (.ds m)
      (by intro p; simp only [eval]; ring)
    rw [denoteForm_append, denoteForm_append]
    simp only [denoteForm, List.map_cons, List.map_nil, List.sum_cons,
      List.sum_nil, robinTerm, specRobinBilinear, specRobinLinear, add_zero]
    rw [hsplit]

/-- C3: a specification list containing exactly one Neumann entry with
flux value `g` on marker `m` yields an empty essential-constraint list and
the residual `base_residual` followed by exactly the single integral
`inner(g, v) * ds(m)`, which is semantically the term `∫ g·v ds`. -/
theorem claim_C3 (ext : Ext) (g : Expr) (m : Int) (F0 : Form) :
    classify_and_accumulate ext [⟨"Neumann", m, .expr g⟩] F0 =
      (none, ([], F0 ++ [neumannTerm g m])) ∧
    SemEq (F0 ++ [neumannTerm g m]) (F0 ++ [specNeumannTerm g m]) := by
  constructor
  · have hw : ∀ t ∈ [(⟨"Neumann", m, .expr g⟩ : BCSpec)], WellFormed t := by
      intro t ht
      simp only [List.mem_singleton] at ht
      subst ht
      exact ⟨by simp [supportedKinds], rfl⟩
    rw [classify_char ext _ F0 hw]
    simp [essentialsOf, termsOf, neumannTerm]
  · intro μ
    have hcongr := denoteIntegral_congr μ (.inner g .v) (.mul g .v) (.ds m)
      (by intro p; simp only [eval])
    rw [denoteForm_append, denoteForm_append]
    simp only [denoteForm, List.map_cons, List.map_nil, List.sum_cons,
      List.sum_nil, neumannTerm, specNeumannTerm, add_zero]
    rw [hcongr]

/-- C4: a specification list containing only Dirichlet entries (marker and
prescribed-value function pairs `ps`) leaves the residual identical
term-for-term to the base residual, and produces exactly one essential
constraint per specification, in order, each binding the degrees of
freedom located on the tagged region (`locate_dofs_topological` of
`facet_tag.find marker`) to the interpolation of the prescribed-value
function. -/
theorem claim_C4 (ext : Ext) (ps : List (Int × ValueFn)) (F0 : Form) :
    classify_and_accumulate ext
        (ps.map (fun p => ⟨"Dirichlet", p.1, .func p.2⟩)) F0 =
      (none,
       (ps.map (fun p => BCObj.dirichlet
          ⟨ext.interpolate p.2, ext.locate_dofs_topological (ext.find p.1)⟩),
        F0)) := by
  have hw : ∀ s ∈ ps.map (fun p => (⟨"Dirichlet", p.1, .func p.2⟩ : BCSpec)),
      WellFormed s := by
    intro s hs
    obtain ⟨p, _, rfl⟩ := List.mem_map.1 hs
    exact ⟨by simp [supportedKinds], rfl⟩
  rw [classify_char ext _ F0 hw, filterMap_essentials_dirichlet,
    flatMap_terms_dirichlet, List.append_nil]

/-- C7: a specification whose marker does not correspond to any tagged
boundary region does not make this component fail: for every well-formed
specification list, with arbitrary (in particular unknown) markers, the
classify-and-accumulate operation completes without raising. -/
theorem claim_C7 (ext : Ext) (specs : List BCSpec) (F0 : Form)
    (hw : ∀ s ∈ specs, WellFormed s) :
    (classify_and_accumulate ext specs F0).1 = none := by
  rw [classify_char ext specs F0 hw]

theorem claim_C7_witness :
    (classify_and_accumulate ext0
        [⟨"Dirichlet", 99, .func u_ex⟩,
         ⟨"Neumann", 98, .expr gExpr⟩,
         ⟨"Robin", 97, .pair rExpr sExpr⟩] []).1 = none :=
  claim_C7 ext0 _ [] (by decide)

/-- C8: the classify-and-accumulate operation is a pure, deterministic
transformation of its inputs: on well-formed input the imperative pipeline
(object construction followed by the mutating aggregation loop) raises
nothing and returns exactly the pure fold `classifyPure` of the
specification list and the base residual; in particular two runs on equal
inputs produce equal outputs and the caller-supplied inputs are not
consumed or mutated. -/
theorem claim_C8 (ext : Ext) (specs : List BCSpec) (F0 : Form)
    (hw : ∀ s ∈ specs, WellFormed s) :
    classify_and_accumulate ext specs F0 =
      (none, classifyPure ext specs F0) := by
  rw [classify_char ext specs F0 hw]
  rfl

theorem claim_C8_witness :
    classify_and_accumulate ext0 scenarioSpecs [] =
      (none, classifyPure ext0 scenarioSpecs []) :=
  claim_C8 ext0 scenarioSpecs [] (by decide)

/-- C5: the end-to-end notebook scenario.  The boundary markers are
`{1: x=0, 2: x=1, 3: y=0, 4: y=1}` and the specification list is
`[Dirichlet(1, u_ex), Dirichlet(2, u_ex), Robin(3, (r, s)), Neumann(4, g)]`.
The pipeline produces exactly two essential constraints (for markers 1 and
2) and a residual that is the base residual plus exactly one Robin
integral and one Neumann integral; the Robin integral is semantically the
bilinear + linear pair of the spec. -/
theorem claim_C5 (ext : Ext) (F0 : Form) :
    classify_and_accumulate ext scenarioSpecs F0 =
      (none,
       ([.dirichlet ⟨ext.interpolate u_ex,
           ext.locate_dofs_topological (ext.find 1)⟩,
         .dirichlet ⟨ext.interpolate u_ex,
           ext.locate_dofs_topological (ext.find 2)⟩],
        F0 ++ [robinTerm rExpr sExpr 3, neumannTerm gExpr 4])) ∧
    SemEq (F0 ++ [robinTerm rExpr sExpr 3, neumannTerm gExpr 4])
      (F0 ++ [specRobinBilinear rExpr 3, specRobinLinear rExpr sExpr 3,
              specNeumannTerm gExpr 4]) ∧
    boundaries.map Prod.fst = [1, 2, 3, 4] := by
  refine ⟨?_, ?_, rfl⟩
  · rw [classify_char ext scenarioSpecs F0 (by decide)]
    simp [scenarioSpecs, essentialsOf, termsOf, robinTerm, neumannTerm]
  · intro μ
    have hsplit := denoteIntegral_split μ
      (.mul rExpr (.inner (.sub .u sExpr) .v))
      (.mul rExpr (.mul .u .v))
      (.neg (.mul rExpr (.mul sExpr .v)))
      (.ds 3)
      (by intro p; simp only [eval]; ring)
    have hcongr := denoteIntegral_congr μ (.inner gExpr .v) (.mul gExpr .v)
      (.ds 4) (by intro p; simp only [eval])
    rw [denoteForm_append, denoteForm_append]
    simp only [denoteForm, List.map_cons, List.map_nil, List.sum_cons,
      List.sum_nil, robinTerm, neumannTerm, specRobinBilinear,
      specRobinLinear, specNeumannTerm, add_zero]
    rw [hsplit, hcongr]
    ring

/-- C6: order independence.  For every permutation `specs2` of a
well-formed specification list `specs`, both runs complete without
raising, the essential-constraint lists are permutations of each other
(the same multiset, hence the same set), and the residuals are
semantically equal as commutative sums of the same terms. -/
theorem claim_C6 (ext : Ext) (specs specs2 : List BCSpec) (F0 : Form)
    (hp : specs2.Perm specs) (hw : ∀ s ∈ specs, WellFormed s) :
    (classify_and_accumulate ext specs F0).1 = none ∧
    (classify_and_accumulate ext specs2 F0).1 = none ∧
    ((classify_and_accumulate ext specs2 F0).2.1).Perm
      ((classify_and_accumulate ext specs F0).2.1) ∧
    SemEq ((classify_and_accumulate ext specs2 F0).2.2)
      ((classify_and_accumulate ext specs F0).2.2) := by
  have hw2 : ∀ s ∈ specs2, WellFormed s := fun s hs => hw s (hp.mem_iff.1 hs)
  rw [classify_char ext specs F0 hw, classify_char ext specs2 F0 hw2]
  refine ⟨rfl, rfl, hp.filterMap _, ?_⟩
  exact semEq_of_perm ((List.Perm.flatMap_right termsOf hp).append_left F0)

theorem claim_C6_witness :
    (classify_and_accumulate ext0
        [⟨"Robin", 3, .pair rExpr sExpr⟩, ⟨"Neumann", 4, .expr gExpr⟩] []).1
      = none ∧
    (classify_and_accumulate ext0
        [⟨"Neumann", 4, .expr gExpr⟩, ⟨"Robin", 3, .pair rExpr sExpr⟩] []).1
      = none ∧
    ((classify_and_accumulate ext0
        [⟨"Neumann", 4, .expr gExpr⟩, ⟨"Robin", 3, .pair rExpr sExpr⟩] []).2.1).Perm
      ((classify_and_accumulate ext0
        [⟨"Robin", 3, .pair rExpr sExpr⟩, ⟨"Neumann", 4, .expr gExpr⟩] []).2.1) ∧
    SemEq ((classify_and_accumulate ext0
        [⟨"Neumann", 4, .expr gExpr⟩, ⟨"Robin", 3, .pair rExpr sExpr⟩] []).2.2)
      ((classify_and_accumulate ext0
        [⟨"Robin", 3, .pair rExpr sExpr⟩, ⟨"Neumann", 4, .expr gExpr⟩] []).2.2) :=
  claim_C6 ext0
    [⟨"Robin", 3, .pair rExpr sExpr⟩, ⟨"Neumann", 4, .expr gExpr⟩]
    [⟨"Neumann", 4, .expr gExpr⟩, ⟨"Robin", 3, .pair rExpr sExpr⟩] []
    (List.Perm.swap _ _ _) (by decide)

/-- C9: kind dispatch accepts exactly the three strings "Dirichlet",
"Neumann", "Robin", compared case-sensitively and exactly: for every
other string the constructor takes the unknown-kind error branch; and
every successfully constructed condition stores the given kind string in
its `type` property (hence one of the three accepted strings) and in its
`bc` property exactly the object built by the matching constructor
branch. -/
theorem claim_C9 (ext : Ext) (k : String) (m : Int) (val : BCValue) :
    (k ∉ supportedKinds →
      mkBoundaryCondition ext k m val =
        .error (.typeError ("Unknown boundary condition: " ++ k))) ∧
    (∀ c, mkBoundaryCondition ext k m val = .ok c →
      c.type = k ∧ c.type ∈ supportedKinds ∧
      c.bc = (condOf ext ⟨k, m, val⟩).bc) := by
  refine ⟨mk_unknown ext k m val, ?_⟩
  intro c hc
  by_cases h1 : k = "Dirichlet"
  · subst h1
    cases val <;> simp [mkBoundaryCondition] at hc <;> subst hc <;>
      exact ⟨rfl, by simp [supportedKinds], by simp [condOf]⟩
  · by_cases h2 : k = "Neumann"
    · subst h2
      cases val <;> simp [mkBoundaryCondition] at hc <;> subst hc <;>
        exact ⟨rfl, by simp [supportedKinds], by simp [condOf]⟩
    · by_cases h3 : k = "Robin"
      · subst h3
        cases val <;> simp [mkBoundaryCondition] at hc <;> subst hc <;>
          exact ⟨rfl, by simp [supportedKinds], by simp [condOf]⟩
      · simp [mkBoundaryCondition, h1, h2, h3] at hc

theorem claim_C9_witness :
    mkBoundaryCondition ext0 "dirichlet" 1 (.func u_ex) =
      .error (.typeError ("Unknown boundary condition: " ++ "dirichlet")) ∧
    mkBoundaryCondition ext0 "NEUMANN" 4 (.expr gExpr) =
      .error (.typeError ("Unknown boundary condition: " ++ "NEUMANN")) :=
  ⟨(claim_C9 ext0 "dirichlet" 1 (.func u_ex)).1 (by decide),
   (claim_C9 ext0 "NEUMANN" 4 (.expr gExpr)).1 (by decide)⟩

/-- C10: the facet-tagging loop pairing invariant.  For every external
`locate_entities`, after the loop over the `boundaries` list the facet
index and marker arrays have equal length; entry by entry they pair each
located facet with the marker of the boundary predicate that located it;
`argsort` of the facet indices is a permutation of the positions; both
arrays are passed to `meshtags` reordered by that single permutation; the
reordered facet indices are in non-decreasing order; and the tag content
is that permutation applied to the index/marker pairs, hence a
permutation of the correct pairing. -/
theorem claim_C10 (locate : Locator → List Nat) :
    (facetArrays locate boundaries).1.length =
      (facetArrays locate boundaries).2.length ∧
    ((facetArrays locate boundaries).1).zip
        ((facetArrays locate boundaries).2) = pairsOf locate boundaries ∧
    (argsort (facetArrays locate boundaries).1).Perm
      (List.range (facetArrays locate boundaries).1.length) ∧
    (facet_tag_of locate).indices =
      fancyIndex (facetArrays locate boundaries).1 0
        (argsort (facetArrays locate boundaries).1) ∧
    (facet_tag_of locate).values =
      fancyIndex (facetArrays locate boundaries).2 0
        (argsort (facetArrays locate boundaries).1) ∧
    List.Pairwise (fun a b => a ≤ b) ((facet_tag_of locate).indices) ∧
    ((facet_tag_of locate).indices).zip ((facet_tag_of locate).values) =
      fancyIndex
        (((facetArrays locate boundaries).1).zip
          ((facetArrays locate boundaries).2)) (0, 0)
        (argsort (facetArrays locate boundaries).1) ∧
    (((facet_tag_of locate).indices).zip
        ((facet_tag_of locate).values)).Perm (pairsOf locate boundaries) := by
  have hlen := facetArrays_length locate boundaries
  have hzip := zip_facetArrays locate boundaries
  have hperm := argsort_perm (facetArrays locate boundaries).1
  have hmem := argsort_mem_lt (facetArrays locate boundaries).1
  have hfz := fancyIndex_zip (facetArrays locate boundaries).1
    (facetArrays locate boundaries).2 hlen
    (argsort (facetArrays locate boundaries).1) hmem
  refine ⟨hlen, hzip, hperm, rfl, rfl, argsort_sorted _, hfz, ?_⟩
  show ((fancyIndex (facetArrays locate boundaries).1 0
      (argsort (facetArrays locate boundaries).1)).zip
    (fancyIndex (facetArrays locate boundaries).2 0
      (argsort (facetArrays locate boundaries).1))).Perm
    (pairsOf locate boundaries)
  rw [hfz, hzip]
  apply fancyIndex_perm
  rw [← hzip]
  have hzl : (((facetArrays locate boundaries).1).zip
      ((facetArrays locate boundaries).2)).length =
      (facetArrays locate boundaries).1.length := by
    rw [List.length_zip]
    omega
  rw [hzl]
  exact hperm

end RobinNeumannDirichlet
